import Mathlib

/-!
Shallow embedding of the `lune` lunar-phase calculator.

Numeric `f64` code is embedded over exact arithmetic: values that the
program computes by rational operations (`+`, `*`, `/`, `%`, `floor`,
comparisons) are modelled in `ℚ`, and quantities involving the
transcendental functions `sin`/`cos` are modelled in `ℝ`.

Sources: `src/utils.rs`, `src/moon.rs`, `src/julian_time.rs`,
`src/astro.rs`.
-/

/-- Truncation toward zero, the rounding used by Rust's float `%` operator
and by `as`-casts from floats to integers. -/
def truncTZ {α : Type} [LinearOrderedField α] [FloorRing α] (x : α) : ℤ :=
  if 0 ≤ x then ⌊x⌋ else ⌈x⌉

/-- Rust `f64` remainder `x % y`: remainder of the truncated division,
with the sign of the dividend. -/
def fmod {α : Type} [LinearOrderedField α] [FloorRing α] (x y : α) : α :=
  x - y * (truncTZ (x / y) : α)

/-- `utils::polynomial_eval`: Horner evaluation of a coefficient list
given lowest-order first (`coefs.iter().rev().fold(0.0, |acc, c| acc * t + c)`). -/
def polynomial_eval {α : Type} [LinearOrderedField α] (t : α) (coefs : List α) : α :=
  coefs.reverse.foldl (fun acc coef => acc * t + coef) 0

/-- `utils::map_to_deg`: reduce an angle to `[0, 360)` by floating modulo
with a correction for negative remainders. -/
def map_to_deg {α : Type} [LinearOrderedField α] [FloorRing α] (angle : α) : α :=
  let m := fmod angle 360
  if m < 0 then m + 360 else m

/-- `moon::Phases`: the eight discrete phases, in declaration
(enumeration) order. -/
inductive Phases where
  | NewMoon
  | WaxingCrescent
  | FirstQuarter
  | WaxingGibbous
  | FullMoon
  | WaningGibbous
  | LastQuarter
  | WaningCrescent
deriving DecidableEq, Repr

/-- `Phases::from_int`: conversion from an integer index.  Indices `0` and
`8` both give `NewMoon`; `1`–`7` give the remaining phases in order; any
other value is an error.  (Rust input type is `u8`.) -/
def Phases.from_int (n : ℕ) : Except String Phases :=
  match n with
  | 0 | 8 => .ok .NewMoon
  | 1 => .ok .WaxingCrescent
  | 2 => .ok .FirstQuarter
  | 3 => .ok .WaxingGibbous
  | 4 => .ok .FullMoon
  | 5 => .ok .WaningGibbous
  | 6 => .ok .LastQuarter
  | 7 => .ok .WaningCrescent
  | _ => .error "Invalid moon phase number"

/-- `Phases::to_int` (present in the source as the commented-out inverse):
the position of a phase in the eight-state enumeration ordering. -/
def Phases.to_int : Phases → ℕ
  | .NewMoon => 0
  | .WaxingCrescent => 1
  | .FirstQuarter => 2
  | .WaxingGibbous => 3
  | .FullMoon => 4
  | .WaningGibbous => 5
  | .LastQuarter => 6
  | .WaningCrescent => 7

/-- A civil UTC datetime decomposed into calendar fields, the form in
which `julian_day_number` consumes a `DateTime<Utc>`. -/
structure CivilTime where
  year : ℤ
  month : ℕ
  day : ℕ
  hour : ℕ
  minute : ℕ
  second : ℕ
deriving DecidableEq, Repr

/-- An absolute instant, as the host time type's Unix timestamp in whole
seconds (the resolution the program uses). -/
abbrev Instant := ℤ

/-- Modelled from the spec: the smallest timestamp the host time type
(`chrono::DateTime<Utc>`) can represent, in seconds
(January 1, 262145 BCE at 00:00:00 UTC). -/
def chronoMinTs : ℤ := -8334632851200

/-- Modelled from the spec: the largest timestamp the host time type
(`chrono::DateTime<Utc>`) can represent, in seconds
(December 31, 262142 CE at 23:59:59 UTC). -/
def chronoMaxTs : ℤ := 8210266876799

/-- Modelled from the spec: `DateTime::from_timestamp`, which yields an
instant for an in-range number of seconds and fails (`None`) when the host
time type cannot represent it. -/
def from_timestamp (s : ℤ) : Option Instant :=
  if chronoMinTs ≤ s ∧ s ≤ chronoMaxTs then some s else none

/-- Rust saturating `as i64` cast applied to an already-truncated value:
out-of-range values clamp to the `i64` bounds. -/
def i64_sat (n : ℤ) : ℤ :=
  max (-(2 ^ 63)) (min (2 ^ 63 - 1) n)

/-- Rust saturating `as u8` cast applied to an already-truncated value:
negative values clamp to `0`, large values to `255`. -/
def u8_sat (n : ℤ) : ℕ :=
  (max 0 (min 255 n)).toNat

/-- `julian_time::JulianTime`: the source instant together with its Julian
Day Number and Julian Century. -/
structure JulianTime where
  utc : CivilTime
  day : ℚ
  century : ℚ
deriving DecidableEq, Repr

/-- `JulianTime::julian_centuries`: Julian Century from Julian Day Number. -/
def JulianTime.julian_centuries (jd : ℚ) : ℚ :=
  (jd - 2451545.0) / 36525.0

/-- `JulianTime::julian_day_number`: Meeus conversion from a civil UTC
datetime to a Julian Day Number. -/
def JulianTime.julian_day_number (dt : CivilTime) : ℚ :=
  let year : ℚ := dt.year
  let month : ℚ := dt.month
  let day : ℚ := dt.day
  let hour : ℚ := dt.hour
  let mn : ℚ := dt.minute
  let sec : ℚ := dt.second
  let decimal_day := day + hour / 24 + mn / 1440 + sec / 86400
  let y := if month ≤ 2 then year - 1 else year
  let m := if month ≤ 2 then month + 12 else month
  let a : ℚ := (⌊y / 100⌋ : ℤ)
  let b : ℚ := 2 - a + ((⌊a / 4⌋ : ℤ) : ℚ)
  let jd : ℚ := ((⌊(365.25 : ℚ) * (y + 4716)⌋ : ℤ) : ℚ) + ((⌊(30.6001 : ℚ) * (m + 1)⌋ : ℤ) : ℚ)
  jd + decimal_day + b - 1524.5

/-- Modelled from the spec: the civil decomposition of the Unix epoch
(timestamp `0`), `1970-01-01T00:00:00 UTC`, produced by the host time
type for `DateTime::from_timestamp(0, 0)`. -/
def epochCivil : CivilTime := ⟨1970, 1, 1, 0, 0, 0⟩

/-- `JulianTime::to_utc`: invert a Julian Day Number to an instant by
linear mapping from the epoch's Julian Day, truncating to whole seconds,
falling back to the epoch instant when out of range. -/
def JulianTime.to_utc {α : Type} [LinearOrderedField α] [FloorRing α] (jd : α) : Instant :=
  let epoch_dt : Instant := (from_timestamp 0).getD 0
  let jd_epoch : α := ((JulianTime.julian_day_number epochCivil : ℚ) : α)
  let day_in_seconds : α := 86400
  let seconds_since_epoch := (jd - jd_epoch) * day_in_seconds
  (from_timestamp (i64_sat (truncTZ seconds_since_epoch))).getD epoch_dt

/-- `JulianTime::new`: bundle an instant with its Julian Day and Century. -/
def JulianTime.new (dt : CivilTime) : JulianTime :=
  let jd := JulianTime.julian_day_number dt
  ⟨dt, jd, JulianTime.julian_centuries jd⟩

/-- `f64::to_radians`: degrees to radians. -/
noncomputable def toRadians (x : ℝ) : ℝ :=
  x * (Real.pi / 180)

/-- `astro::DELTA_T`: fixed difference between uniform Astronomical Time
and variable Earth Time (seconds, 2026 estimate). -/
def DELTA_T : ℚ := 70.0

/-- `astro::moon_elongation`: mean elongation of the Moon, degrees in
`[0, 360)`, polynomial in the Julian Century. -/
def moon_elongation (julian : JulianTime) : ℚ :=
  let t := julian.century
  let coefs : List ℚ :=
    [297.8501921, 445267.1114034, -0.0018819, 1 / 545868, -1 / 113065000]
  map_to_deg (polynomial_eval t coefs)

/-- `astro::sun_mean_anomaly`: Sun's mean anomaly, degrees in `[0, 360)`. -/
def sun_mean_anomaly (julian : JulianTime) : ℚ :=
  let t := julian.century
  let coefs : List ℚ := [357.5291092, 35999.0502909, -0.0001536, 1 / 24490000]
  map_to_deg (polynomial_eval t coefs)

/-- `astro::moon_mean_anomaly`: Moon's mean anomaly, degrees in `[0, 360)`. -/
def moon_mean_anomaly (julian : JulianTime) : ℚ :=
  let t := julian.century
  let coefs : List ℚ :=
    [134.9633964, 477198.8675055, 0.0087414, 1 / 69699, -1 / 14712000]
  map_to_deg (polynomial_eval t coefs)

/-- `astro::selenocentric_elongation`: perturbation-corrected elongation,
degrees in `[0, 360)`.  The inputs are the (rational-valued) mean
elements; the sine terms make the result real-valued. -/
noncomputable def selenocentric_elongation (d m m_prime : ℚ) : ℝ :=
  let i : ℝ := 180 - (d : ℝ) - 6.289 * Real.sin (toRadians (m_prime : ℝ))
      + 2.1 * Real.sin (toRadians (m : ℝ))
      - 1.274 * Real.sin (2 * toRadians (d : ℝ) - toRadians (m_prime : ℝ))
      - 0.658 * Real.sin (2 * toRadians (d : ℝ))
      - 0.214 * Real.sin (2 * toRadians (m_prime : ℝ))
      - 0.11 * Real.sin (toRadians (d : ℝ))
  map_to_deg i

/-- `astro::illuminated_fraction`: the illuminated fraction of the Moon's
disk, `(1 + cos i) / 2`. -/
noncomputable def illuminated_fraction (julian : JulianTime) : ℝ :=
  let d := moon_elongation julian
  let m := sun_mean_anomaly julian
  let m_prime := moon_mean_anomaly julian
  let i := selenocentric_elongation d m m_prime
  (1 + Real.cos (toRadians i)) / 2

/-- `astro::index_lunation`: estimate of the continuous lunation index
`k` from the Julian Day. -/
def index_lunation (julian : JulianTime) : ℚ :=
  let jd := julian.day
  let ref_new_moon : ℚ := 2451550.09766
  let avg_synodic_month : ℚ := 29.530588861
  (jd - ref_new_moon) / avg_synodic_month

/-- `julian_day_of_phase`, mean part: the uncorrected Julian Ephemeris Day
of the phase boundary at lunation index `k` (Horner polynomial in
`t = k / 1236.85`). -/
def jde_mean (k : ℚ) : ℚ :=
  let t := k / 1236.85
  let coefs : List ℚ :=
    [2451550.09766 + 29.530588861 * k, 0.0, 0.00015437, -0.000000150, 0.00000000073]
  polynomial_eval t coefs

/-- `julian_day_of_phase`, Sun's mean anomaly at the boundary. -/
def phase_sun_anomaly (k : ℚ) : ℚ :=
  let t := k / 1236.85
  2.5534 + 29.1053567 * k - 0.00000218 * t ^ 2

/-- `julian_day_of_phase`, Moon's mean anomaly at the boundary. -/
def phase_moon_anomaly (k : ℚ) : ℚ :=
  let t := k / 1236.85
  201.5643 + 385.81693528 * k + 0.0107438 * t ^ 2

/-- `julian_day_of_phase`, branch test: the boundary counts as new/full
when the fractional part of `k` is within `0.1` of `0` or of `0.5`. -/
def is_full_or_new (k : ℚ) : Prop :=
  |fmod k 1| < 0.1 ∨ |fmod k 1 - 0.5| < 0.1

instance (k : ℚ) : Decidable (is_full_or_new k) := by
  unfold is_full_or_new
  infer_instance

/-- `julian_day_of_phase`, correction series: the periodic correction
whose coefficients change with the targeted phase. -/
noncomputable def phase_correction (k : ℚ) : ℝ :=
  let t : ℚ := k / 1236.85
  let m := phase_sun_anomaly k
  let m_prime := phase_moon_anomaly k
  if is_full_or_new k then
    ((0.1734 - 0.000393 * t : ℚ) : ℝ) * Real.sin (toRadians (m : ℝ))
      + 0.0021 * Real.sin (toRadians ((2 * m : ℚ) : ℝ))
      - 0.4068 * Real.sin (toRadians (m_prime : ℝ))
  else
    ((0.1721 - 0.0004 * t : ℚ) : ℝ) * Real.sin (toRadians (m : ℝ))
      - 0.6280 * Real.sin (toRadians (m_prime : ℝ))

/-- `astro::julian_day_of_phase`: true Julian Day (Universal Time) of the
phase boundary at lunation index `k`. -/
noncomputable def julian_day_of_phase (k : ℚ) : ℝ :=
  let jde_true : ℝ := ((jde_mean k : ℚ) : ℝ) + phase_correction k
  jde_true - ((DELTA_T : ℚ) : ℝ) / 86400

/-- `phases_around`, quantized quarter index before the cast:
`((k % 1.0) * 4.0).floor()` as an (integer-valued) float. -/
def phase_index (julian : JulianTime) : ℤ :=
  let k := index_lunation julian
  ⌊fmod k 1 * 4⌋

/-- `phases_around`, refined lunation index of the previous boundary:
`k.floor() + phase_index * 0.25`. -/
def k_base (julian : JulianTime) : ℚ :=
  let k := index_lunation julian
  ((⌊k⌋ : ℤ) : ℚ) + (phase_index julian : ℚ) * 0.25

/-- `astro::phases_around`: the previous and next phase-boundary events
around the given time.  The `u8` cast of the quarter index saturates, the
`u8` arithmetic wraps modulo 256, and `unwrap` is modelled by a `NewMoon`
default (never used: `from_int` succeeds on every reachable index). -/
noncomputable def phases_around (julian : JulianTime) : (Phases × Instant) × (Phases × Instant) :=
  let pi8 : ℕ := u8_sat (phase_index julian)
  let prev_phase : Phases × Instant :=
    ((Phases.from_int (pi8 * 2 % 256 % 8)).toOption.getD .NewMoon,
     JulianTime.to_utc (julian_day_of_phase (k_base julian)))
  let next_phase : Phases × Instant :=
    ((Phases.from_int ((pi8 + 1) % 256 * 2 % 256 % 8)).toOption.getD .NewMoon,
     JulianTime.to_utc (julian_day_of_phase (k_base julian + 0.25)))
  (prev_phase, next_phase)

/-- The seconds-since-epoch value `to_utc` hands to the host time type,
after truncation and the saturating `i64` cast. -/
def to_utc_secs (jd : ℚ) : ℤ :=
  i64_sat (truncTZ ((jd - JulianTime.julian_day_number epochCivil) * 86400))

/-- Modelled from the spec: proleptic-Gregorian leap years, the calendar
rule of the host time type's civil datetimes. -/
def isLeapYear (y : ℤ) : Bool :=
  (y % 4 == 0 && y % 100 != 0) || y % 400 == 0

/-- Modelled from the spec: number of days of a civil calendar month. -/
def daysInMonth (y : ℤ) (m : ℤ) : ℤ :=
  if m = 1 then 31
  else if m = 2 then (if isLeapYear y then 29 else 28)
  else if m = 3 then 31
  else if m = 4 then 30
  else if m = 5 then 31
  else if m = 6 then 30
  else if m = 7 then 31
  else if m = 8 then 31
  else if m = 9 then 30
  else if m = 10 then 31
  else if m = 11 then 30
  else if m = 12 then 31
  else 0

/-- Modelled from the spec: the civil datetimes the host time type can
hand to `julian_day_number` — calendar-valid proleptic-Gregorian dates
with in-range time-of-day fields. -/
def validCivil (c : CivilTime) : Prop :=
  1 ≤ c.month ∧ c.month ≤ 12 ∧ 1 ≤ c.day ∧ (c.day : ℤ) ≤ daysInMonth c.year c.month ∧
    c.hour ≤ 23 ∧ c.minute ≤ 59 ∧ c.second ≤ 59

instance (c : CivilTime) : Decidable (validCivil c) := by
  unfold validCivil
  infer_instance

/-- Chronological (lexicographic) order on civil datetimes. -/
def civilLt (a b : CivilTime) : Prop :=
  a.year < b.year ∨ (a.year = b.year ∧
    (a.month < b.month ∨ (a.month = b.month ∧
      (a.day < b.day ∨ (a.day = b.day ∧
        (a.hour < b.hour ∨ (a.hour = b.hour ∧
          (a.minute < b.minute ∨ (a.minute = b.minute ∧
            a.second < b.second)))))))))

instance (a b : CivilTime) : Decidable (civilLt a b) := by
  unfold civilLt
  infer_instance

/-- The date-independent part of the Meeus formula, with every floor
expressed as integer (Euclidean) division: `⌊365.25(y+4716)⌋ +
⌊30.6001(m+1)⌋ + b` after the month shift. -/
def gpartZ (Y : ℤ) (M : ℤ) : ℤ :=
  let y := if M ≤ 2 then Y - 1 else Y
  let m := if M ≤ 2 then M + 12 else M
  (1461 * y + 6890076) / 4 + 306001 * (m + 1) / 10000 + (2 - y / 100 + y / 100 / 4)

/-- Year of the succeeding calendar month. -/
def nextY (Y M : ℤ) : ℤ := if M = 12 then Y + 1 else Y

/-- Number of the succeeding calendar month. -/
def nextM (M : ℤ) : ℤ := if M = 12 then 1 else M + 1

/-- A civil instant close to the host time type's upper limit
(June 1, 262141 at midnight UTC). -/
def farInstant : CivilTime := ⟨262141, 6, 1, 0, 0, 0⟩

section UtilLemmas

variable {α : Type} [LinearOrderedField α] [FloorRing α]

/-- The normalized angle is nonnegative and strictly below 360. -/
theorem map_to_deg_nonneg_lt (x : α) : 0 ≤ map_to_deg x ∧ map_to_deg x < 360 := by
  simp only [map_to_deg, fmod, truncTZ]
  by_cases h : (0 : α) ≤ x / 360
  · rw [if_pos h]
    have hfl : ((⌊x / 360⌋ : ℤ) : α) ≤ x / 360 := Int.floor_le _
    have hfu : x / 360 < (⌊x / 360⌋ : ℤ) + 1 := Int.lt_floor_add_one _
    have h1 : (0 : α) ≤ x - 360 * (⌊x / 360⌋ : ℤ) := by nlinarith
    have h2 : x - 360 * ((⌊x / 360⌋ : ℤ) : α) < 360 := by nlinarith
    rw [if_neg (not_lt.2 h1)]
    exact ⟨h1, h2⟩
  · rw [if_neg h]
    push_neg at h
    have hcl : x / 360 ≤ ((⌈x / 360⌉ : ℤ) : α) := Int.le_ceil _
    have hcu : ((⌈x / 360⌉ : ℤ) : α) < x / 360 + 1 := Int.ceil_lt_add_one _
    have h1 : x - 360 * ((⌈x / 360⌉ : ℤ) : α) ≤ 0 := by nlinarith
    have h2 : -360 < x - 360 * ((⌈x / 360⌉ : ℤ) : α) := by nlinarith
    by_cases hm : x - 360 * ((⌈x / 360⌉ : ℤ) : α) < 0
    · rw [if_pos hm]
      constructor <;> linarith
    · rw [if_neg hm]
      push_neg at hm
      constructor <;> linarith

/-- Normalizing a value already in `[0, 360)` returns it unchanged. -/
theorem map_to_deg_eq_self {x : α} (h0 : 0 ≤ x) (h1 : x < 360) : map_to_deg x = x := by
  have hdiv0 : (0 : α) ≤ x / 360 := by positivity
  have hdiv1 : x / 360 < 1 := by
    rw [div_lt_one (by norm_num : (0 : α) < 360)]
    exact h1
  have hfl : ⌊x / 360⌋ = 0 := by
    rw [Int.floor_eq_zero_iff]
    exact ⟨hdiv0, hdiv1⟩
  simp only [map_to_deg, fmod, truncTZ, if_pos hdiv0, hfl]
  norm_num
  exact h0

end UtilLemmas

/-- C3: `normalize_degrees` (`map_to_deg`) always lands in the half-open
interval `[0, 360)`: the result is `≥ 0` and strictly less than `360`. -/
theorem C3_map_to_deg_range (x : ℚ) : 0 ≤ map_to_deg x ∧ map_to_deg x < 360 :=
  map_to_deg_nonneg_lt x

/-- C4: `normalize_degrees` (`map_to_deg`) is idempotent. -/
theorem C4_map_to_deg_idempotent (x : ℚ) : map_to_deg (map_to_deg x) = map_to_deg x := by
  obtain ⟨h0, h1⟩ := map_to_deg_nonneg_lt x
  exact map_to_deg_eq_self h0 h1

/-- C5: `Phases::from_int` succeeds exactly on `0`–`8`; every larger index
errors, and `8` is an alias for `0`, both yielding `NewMoon`. -/
theorem C5_from_int_domain :
    (∀ n : ℕ, (Phases.from_int n).toOption.isSome = decide (n ≤ 8)) ∧
    Phases.from_int 8 = Phases.from_int 0 ∧
    Phases.from_int 0 = .ok .NewMoon := by
  refine ⟨fun n => ?_, rfl, rfl⟩
  match n with
  | 0 | 1 | 2 | 3 | 4 | 5 | 6 | 7 | 8 => rfl
  | n + 9 => rfl

/-- C7: the reference instant `2000-01-01T12:00:00 UTC` converts to Julian
Day Number exactly `2451545.0` (the J2000.0 epoch) and Julian Century
exactly `0.0`. -/
theorem C7_j2000_roundtrip :
    (JulianTime.new ⟨2000, 1, 1, 12, 0, 0⟩).day = 2451545 ∧
    (JulianTime.new ⟨2000, 1, 1, 12, 0, 0⟩).century = 0 := by
  have hday : (JulianTime.new ⟨2000, 1, 1, 12, 0, 0⟩).day = 2451545 := by
    show JulianTime.julian_day_number ⟨2000, 1, 1, 12, 0, 0⟩ = 2451545
    unfold JulianTime.julian_day_number
    norm_num
  refine ⟨hday, ?_⟩
  show JulianTime.julian_centuries (JulianTime.julian_day_number ⟨2000, 1, 1, 12, 0, 0⟩) = 0
  rw [show JulianTime.julian_day_number ⟨2000, 1, 1, 12, 0, 0⟩ = 2451545 from hday]
  unfold JulianTime.julian_centuries
  norm_num

/-- C9: the illuminated fraction `(1 + cos i) / 2` lies in `[0, 1]` for
every instant. -/
theorem C9_illuminated_fraction_range (julian : JulianTime) :
    0 ≤ illuminated_fraction julian ∧ illuminated_fraction julian ≤ 1 := by
  have he : illuminated_fraction julian =
      (1 + Real.cos (toRadians (selenocentric_elongation (moon_elongation julian)
        (sun_mean_anomaly julian) (moon_mean_anomaly julian)))) / 2 := rfl
  have h1 := Real.neg_one_le_cos (toRadians (selenocentric_elongation (moon_elongation julian)
    (sun_mean_anomaly julian) (moon_mean_anomaly julian)))
  have h2 := Real.cos_le_one (toRadians (selenocentric_elongation (moon_elongation julian)
    (sun_mean_anomaly julian) (moon_mean_anomaly julian)))
  rw [he]
  constructor <;> linarith

/-- The fractional remainder `x % 1.0` lies strictly between `-1` and `1`. -/
theorem fmod_one_bounds (x : ℚ) : -1 < fmod x 1 ∧ fmod x 1 < 1 := by
  simp only [fmod, truncTZ, div_one, one_mul]
  by_cases h : (0 : ℚ) ≤ x
  · rw [if_pos h]
    have h1 : ((⌊x⌋ : ℤ) : ℚ) ≤ x := Int.floor_le _
    have h2 : x < (⌊x⌋ : ℤ) + 1 := Int.lt_floor_add_one _
    constructor <;> linarith
  · rw [if_neg h]
    have h1 : x ≤ ((⌈x⌉ : ℤ) : ℚ) := Int.le_ceil _
    have h2 : ((⌈x⌉ : ℤ) : ℚ) < x + 1 := Int.ceil_lt_add_one _
    constructor <;> linarith

/-- The quantized quarter index (before the `u8` cast) lies in `[-4, 3]`. -/
theorem phase_index_bounds (julian : JulianTime) :
    -4 ≤ phase_index julian ∧ phase_index julian ≤ 3 := by
  obtain ⟨h1, h2⟩ := fmod_one_bounds (index_lunation julian)
  have he : phase_index julian = ⌊fmod (index_lunation julian) 1 * 4⌋ := rfl
  rw [he]
  constructor
  · apply Int.le_floor.2
    push_cast
    linarith
  · have h4 : ⌊fmod (index_lunation julian) 1 * 4⌋ < 4 := by
      apply Int.floor_lt.2
      push_cast
      linarith
    omega

/-- After the saturating `u8` cast the quarter index lies in `0..=3`. -/
theorem u8_phase_index_le_three (julian : JulianTime) :
    u8_sat (phase_index julian) ≤ 3 := by
  obtain ⟨h1, h2⟩ := phase_index_bounds julian
  unfold u8_sat
  omega

/-- C10: the quantized quarter index is in `0..=3` after the cast, both
indices handed to `Phases::from_int` are accepted, and so the two
`unwrap`s in `phases_around` always succeed. -/
theorem C10_phases_around_no_panic (julian : JulianTime) :
    u8_sat (phase_index julian) ≤ 3 ∧
    (Phases.from_int (u8_sat (phase_index julian) * 2 % 256 % 8)).toOption.isSome = true ∧
    (Phases.from_int ((u8_sat (phase_index julian) + 1) % 256 * 2 % 256 % 8)).toOption.isSome
      = true := by
  have h3 := u8_phase_index_le_three julian
  refine ⟨h3, ?_, ?_⟩ <;>
  · set p := u8_sat (phase_index julian) with hp
    clear_value p
    interval_cases p <;> decide

/-- The two phases returned by `phases_around` always sit exactly two
steps apart (mod 8) in the enumeration ordering. -/
theorem phases_around_gap (julian : JulianTime) :
    ((Phases.to_int (phases_around julian).2.1 : ℤ) -
      (Phases.to_int (phases_around julian).1.1 : ℤ)) % 8 = 2 := by
  have he1 : (phases_around julian).1.1 =
      (Phases.from_int (u8_sat (phase_index julian) * 2 % 256 % 8)).toOption.getD .NewMoon := rfl
  have he2 : (phases_around julian).2.1 =
      (Phases.from_int ((u8_sat (phase_index julian) + 1) % 256 * 2 % 256 % 8)).toOption.getD
        .NewMoon := rfl
  rw [he1, he2]
  have h3 := u8_phase_index_le_three julian
  set p := u8_sat (phase_index julian) with hp
  clear_value p
  interval_cases p <;> decide

/-- C1 (amended): for every instant the previous/next `Phase` values
returned by `phases_around` differ by exactly two steps (mod 8) in the
eight-state enumeration ordering, not one. -/
theorem C1_phase_gap_two (julian : JulianTime) :
    ((Phases.to_int (phases_around julian).2.1 : ℤ) -
      (Phases.to_int (phases_around julian).1.1 : ℤ)) % 8 = 2 :=
  phases_around_gap julian

/-- C1 counterexample: at `2000-01-06T18:00:00 UTC` the two phases
returned by the boundary search do not differ by one step (mod 8): the
difference is two. -/
theorem C1_counterexample :
    ¬ (((Phases.to_int (phases_around (JulianTime.new ⟨2000, 1, 6, 18, 0, 0⟩)).2.1 : ℤ) -
        (Phases.to_int (phases_around (JulianTime.new ⟨2000, 1, 6, 18, 0, 0⟩)).1.1 : ℤ)) % 8
        = 1) := by
  rw [phases_around_gap (JulianTime.new ⟨2000, 1, 6, 18, 0, 0⟩)]
  decide

/-- `to_utc` is exactly the host conversion of `to_utc_secs`, with the
epoch instant as fallback. -/
theorem to_utc_eq_getD (jd : ℚ) :
    JulianTime.to_utc jd = (from_timestamp (to_utc_secs jd)).getD ((from_timestamp 0).getD 0) :=
  rfl

/-- The epoch itself is representable by the host time type. -/
theorem from_timestamp_zero : from_timestamp 0 = some 0 := by
  unfold from_timestamp chronoMinTs chronoMaxTs
  norm_num

/-- C6: the inverse time conversion is total: for every finite Julian Day
it either returns the instant of the computed seconds-since-epoch, or —
when the host time type cannot represent that value — the Unix epoch
instant, never a crash. -/
theorem C6_to_utc_total_fallback (jd : ℚ) :
    (from_timestamp (to_utc_secs jd) = none → JulianTime.to_utc jd = 0) ∧
    (∀ s : ℤ, from_timestamp (to_utc_secs jd) = some s → JulianTime.to_utc jd = s) := by
  constructor
  · intro h
    rw [to_utc_eq_getD, h, from_timestamp_zero]
    rfl
  · intro s h
    rw [to_utc_eq_getD, h]
    rfl

/-- C6 witness: at Julian Day `10^10` the computed seconds overflow the
host range, and `to_utc` indeed returns the epoch instant. -/
theorem C6_witness :
    from_timestamp (to_utc_secs (10 ^ 10 : ℚ)) = none ∧
    JulianTime.to_utc (10 ^ 10 : ℚ) = 0 := by
  have hsecs : to_utc_secs (10 ^ 10 : ℚ) = 863789133240000 := by
    unfold to_utc_secs truncTZ i64_sat
    rw [show JulianTime.julian_day_number epochCivil = 2440587.5 by
      unfold epochCivil JulianTime.julian_day_number
      norm_num]
    norm_num
  have hnone : from_timestamp (to_utc_secs (10 ^ 10 : ℚ)) = none := by
    rw [hsecs]
    unfold from_timestamp chronoMinTs chronoMaxTs
    norm_num
  exact ⟨hnone, (C6_to_utc_total_fallback (10 ^ 10 : ℚ)).1 hnone⟩

/-- Arithmetic characterization of leap years. -/
theorem isLeapYear_iff (y : ℤ) :
    isLeapYear y = true ↔ ((y % 4 = 0 ∧ y % 100 ≠ 0) ∨ y % 400 = 0) := by
  unfold isLeapYear
  simp [Bool.or_eq_true, Bool.and_eq_true, beq_iff_eq, bne_iff_ne]

/-- The `365.25` floor as integer division. -/
theorem meeusF_eq (y : ℤ) :
    ⌊(365.25 : ℚ) * ((y : ℚ) + 4716)⌋ = (1461 * y + 6890076) / 4 := by
  rw [show (365.25 : ℚ) * ((y : ℚ) + 4716) = ((1461 * y + 6890076 : ℤ) : ℚ) / ((4 : ℕ) : ℚ) by
    push_cast
    ring]
  rw [Rat.floor_intCast_div_natCast]
  norm_num

/-- The `30.6001` floor as integer division. -/
theorem meeusG_eq (m : ℤ) :
    ⌊(30.6001 : ℚ) * ((m : ℚ) + 1)⌋ = 306001 * (m + 1) / 10000 := by
  rw [show (30.6001 : ℚ) * ((m : ℚ) + 1) = ((306001 * (m + 1) : ℤ) : ℚ) / ((10000 : ℕ) : ℚ) by
    push_cast
    ring]
  rw [Rat.floor_intCast_div_natCast]
  norm_num

/-- The century floor as integer division. -/
theorem meeusA_eq (y : ℤ) : ⌊(y : ℚ) / 100⌋ = y / 100 := by
  rw [show ((y : ℚ) / 100) = ((y : ℤ) : ℚ) / ((100 : ℕ) : ℚ) by norm_num]
  rw [Rat.floor_intCast_div_natCast]
  norm_num

/-- The quarter-of-century floor as integer division. -/
theorem meeusA4_eq (a : ℤ) : ⌊((a : ℤ) : ℚ) / 4⌋ = a / 4 := by
  rw [show (((a : ℤ) : ℚ) / 4) = ((a : ℤ) : ℚ) / ((4 : ℕ) : ℚ) by norm_num]
  rw [Rat.floor_intCast_div_natCast]
  norm_num

/-- `julian_day_number` decomposes into the month part, the day, and the
time-of-day fraction. -/
theorem jdn_decomp (c : CivilTime) :
    JulianTime.julian_day_number c =
      (gpartZ c.year c.month : ℚ) + (c.day : ℚ) +
        ((3600 * c.hour + 60 * c.minute + c.second : ℕ) : ℚ) / 86400 - 1524.5 := by
  simp only [JulianTime.julian_day_number, gpartZ]
  have hcast : ((c.month : ℚ) ≤ 2) ↔ ((c.month : ℤ) ≤ 2) := by
    constructor <;> intro h <;> exact_mod_cast h
  by_cases hm : (c.month : ℤ) ≤ 2
  · rw [if_pos (hcast.2 hm), if_pos (hcast.2 hm), if_pos hm, if_pos hm]
    rw [show ((c.year : ℚ) - 1) = ((c.year - 1 : ℤ) : ℚ) by push_cast; ring]
    rw [meeusF_eq (c.year - 1)]
    rw [show ((c.month : ℚ) + 12) = (((c.month : ℤ) + 12 : ℤ) : ℚ) by push_cast; ring]
    rw [meeusG_eq ((c.month : ℤ) + 12)]
    rw [meeusA_eq (c.year - 1), meeusA4_eq ((c.year - 1) / 100)]
    push_cast
    ring
  · rw [if_neg (fun h => hm (hcast.1 h)), if_neg (fun h => hm (hcast.1 h)), if_neg hm, if_neg hm]
    rw [show ((c.year : ℚ) + 4716) = (((c.year : ℤ) : ℚ) + 4716) from rfl]
    rw [meeusF_eq c.year]
    rw [show ((c.month : ℚ) + 1) = (((c.month : ℤ) : ℤ) : ℚ) + 1 by push_cast; ring]
    rw [meeusG_eq (c.month : ℤ)]
    rw [meeusA_eq c.year, meeusA4_eq (c.year / 100)]
    push_cast
    ring

/-- Every month has at least 28 days. -/
theorem daysInMonth_ge_28 (Y M : ℤ) (h1 : 1 ≤ M) (h2 : M ≤ 12) : 28 ≤ daysInMonth Y M := by
  interval_cases M <;> simp only [daysInMonth] <;> norm_num <;>
    (first | omega | (split_ifs <;> omega))

/-- The yearly `365.25`-floor advance: 366 in years divisible by 4,
otherwise 365. -/
theorem F_step (Y : ℤ) :
    (1461 * Y + 6890076) / 4 - (1461 * (Y - 1) + 6890076) / 4 =
      if Y % 4 = 0 then 366 else 365 := by
  obtain ⟨q, r, hqr, hr0, hr1⟩ : ∃ q r, Y = 4 * q + r ∧ 0 ≤ r ∧ r < 4 :=
    ⟨Y / 4, Y % 4, by omega, by omega, by omega⟩
  subst hqr
  interval_cases r <;> split_ifs <;> omega

/-- The century term advances only at century years. -/
theorem A_step (Y : ℤ) : Y / 100 - (Y - 1) / 100 = if Y % 100 = 0 then 1 else 0 := by
  split_ifs <;> omega

/-- The quadricentennial term advances only at years divisible by 400. -/
theorem A4_step (Y : ℤ) :
    (Y / 100) / 4 - ((Y - 1) / 100) / 4 = if Y % 400 = 0 then 1 else 0 := by
  split_ifs <;> omega

/-- The successor month number stays in range. -/
theorem nextM_range (M : ℤ) (h1 : 1 ≤ M) (h2 : M ≤ 12) : 1 ≤ nextM M ∧ nextM M ≤ 12 := by
  unfold nextM
  split_ifs <;> omega

/-- Stepping to the next month advances the month part of the Meeus
formula by exactly the number of days of the current month. -/
theorem gpartZ_step (Y M : ℤ) (h1 : 1 ≤ M) (h2 : M ≤ 12) :
    gpartZ (nextY Y M) (nextM M) = gpartZ Y M + daysInMonth Y M := by
  interval_cases M
  · simp only [nextY, nextM, gpartZ, daysInMonth]
    norm_num
    omega
  · -- February: the leap-year computation
    simp only [nextY, nextM, gpartZ, daysInMonth]
    norm_num
    have hF := F_step Y
    have hA := A_step Y
    have hA4 := A4_step Y
    split_ifs with hL <;>
      rw [isLeapYear_iff] at hL <;>
      split_ifs at hF hA hA4 <;>
      omega
  · simp only [nextY, nextM, gpartZ, daysInMonth]
    norm_num
    omega
  · simp only [nextY, nextM, gpartZ, daysInMonth]
    norm_num
    omega
  · simp only [nextY, nextM, gpartZ, daysInMonth]
    norm_num
    omega
  · simp only [nextY, nextM, gpartZ, daysInMonth]
    norm_num
    omega
  · simp only [nextY, nextM, gpartZ, daysInMonth]
    norm_num
    omega
  · simp only [nextY, nextM, gpartZ, daysInMonth]
    norm_num
    omega
  · simp only [nextY, nextM, gpartZ, daysInMonth]
    norm_num
    omega
  · simp only [nextY, nextM, gpartZ, daysInMonth]
    norm_num
    omega
  · simp only [nextY, nextM, gpartZ, daysInMonth]
    norm_num
    omega
  · simp only [nextY, nextM, gpartZ, daysInMonth]
    norm_num
    omega

/-- Over any positive number of month steps, the month part advances by
at least the day count of the starting month. -/
theorem gpartZ_chain (n : ℕ) : ∀ Y M Y2 M2 : ℤ, 1 ≤ M → M ≤ 12 → 1 ≤ M2 → M2 ≤ 12 →
    12 * Y2 + M2 = 12 * Y + M + (n + 1) →
    gpartZ Y M + daysInMonth Y M ≤ gpartZ Y2 M2 := by
  induction n with
  | zero =>
    intro Y M Y2 M2 h1 h2 h3 h4 heq
    have hnext : Y2 = nextY Y M ∧ M2 = nextM M := by
      unfold nextY nextM
      split_ifs with h
      · constructor <;> omega
      · constructor <;> omega
    rw [hnext.1, hnext.2, gpartZ_step Y M h1 h2]
  | succ n ih =>
    intro Y M Y2 M2 h1 h2 h3 h4 heq
    obtain ⟨hn1, hn2⟩ := nextM_range M h1 h2
    have hidx : 12 * nextY Y M + nextM M = 12 * Y + M + 1 := by
      unfold nextY nextM
      split_ifs <;> omega
    have hstep := gpartZ_step Y M h1 h2
    have hrec := ih (nextY Y M) (nextM M) Y2 M2 hn1 hn2 h3 h4 (by omega)
    have hd := daysInMonth_ge_28 (nextY Y M) (nextM M) hn1 hn2
    omega

/-- C8: the Julian Day Number is strictly increasing in the civil
instant: for valid civil datetimes at least one second apart (i.e.
distinct at second resolution), the later instant has the strictly
larger Julian Day Number. -/
theorem C8_julian_day_number_strict_mono (c1 c2 : CivilTime)
    (hv1 : validCivil c1) (hv2 : validCivil c2) (hlt : civilLt c1 c2) :
    JulianTime.julian_day_number c1 < JulianTime.julian_day_number c2 := by
  obtain ⟨hm1a, hm1b, hd1a, hd1b, hh1, hmin1, hs1⟩ := hv1
  obtain ⟨hm2a, hm2b, hd2a, hd2b, hh2, hmin2, hs2⟩ := hv2
  have hkey : 86400 * (gpartZ c1.year c1.month + (c1.day : ℤ)) +
      (3600 * (c1.hour : ℤ) + 60 * (c1.minute : ℤ) + (c1.second : ℤ)) <
      86400 * (gpartZ c2.year c2.month + (c2.day : ℤ)) +
      (3600 * (c2.hour : ℤ) + 60 * (c2.minute : ℤ) + (c2.second : ℤ)) := by
    by_cases hidx : 12 * c1.year + (c1.month : ℤ) < 12 * c2.year + (c2.month : ℤ)
    · set n : ℕ :=
        (12 * c2.year + (c2.month : ℤ) - (12 * c1.year + (c1.month : ℤ)) - 1).toNat with hn
      have hnn : (n : ℤ) = 12 * c2.year + (c2.month : ℤ) - (12 * c1.year + (c1.month : ℤ)) - 1 := by
        rw [hn]
        exact Int.toNat_of_nonneg (by omega)
      have hchain := gpartZ_chain n c1.year c1.month c2.year c2.month
        (by omega) (by omega) (by omega) (by omega) (by omega)
      omega
    · rcases hlt with hy | ⟨hy, hm | ⟨hm, hrest⟩⟩
      · omega
      · omega
      · have hy' : c2.year = c1.year := hy.symm
        have hm' : c2.month = c1.month := hm.symm
        rw [hy', hm']
        rcases hrest with hd | ⟨hd, hh | ⟨hh, hmi | ⟨hmi, hs⟩⟩⟩ <;> omega
  rw [jdn_decomp c1, jdn_decomp c2]
  have hq : ((86400 * (gpartZ c1.year c1.month + (c1.day : ℤ)) +
      (3600 * (c1.hour : ℤ) + 60 * (c1.minute : ℤ) + (c1.second : ℤ)) : ℤ) : ℚ) <
      ((86400 * (gpartZ c2.year c2.month + (c2.day : ℤ)) +
      (3600 * (c2.hour : ℤ) + 60 * (c2.minute : ℤ) + (c2.second : ℤ)) : ℤ) : ℚ) := by
    exact_mod_cast hkey
  push_cast at hq
  push_cast
  linarith

/-- C8 witness: one second after noon of J2000.0 has a strictly larger
Julian Day Number than noon itself. -/
theorem C8_witness :
    validCivil ⟨2000, 1, 1, 12, 0, 0⟩ ∧ validCivil ⟨2000, 1, 1, 12, 0, 1⟩ ∧
    civilLt ⟨2000, 1, 1, 12, 0, 0⟩ ⟨2000, 1, 1, 12, 0, 1⟩ ∧
    JulianTime.julian_day_number ⟨2000, 1, 1, 12, 0, 0⟩ <
      JulianTime.julian_day_number ⟨2000, 1, 1, 12, 0, 1⟩ :=
  ⟨by decide, by decide, by decide,
    C8_julian_day_number_strict_mono _ _ (by decide) (by decide) (by decide)⟩

section TruncLemmas

variable {α : Type} [LinearOrderedField α] [FloorRing α]

/-- Truncation toward zero differs from its argument by less than one. -/
theorem truncTZ_bounds (s : α) : s - 1 < (truncTZ s : α) ∧ (truncTZ s : α) < s + 1 := by
  unfold truncTZ
  split_ifs with h
  · exact ⟨Int.sub_one_lt_floor s, lt_of_le_of_lt (Int.floor_le s) (by linarith)⟩
  · exact ⟨lt_of_lt_of_le (by linarith) (Int.le_ceil s), Int.ceil_lt_add_one s⟩

end TruncLemmas

/-- The epoch Julian Day used by `to_utc`. -/
theorem jdn_epoch_eq : JulianTime.julian_day_number epochCivil = 2440587.5 := by
  unfold epochCivil JulianTime.julian_day_number
  norm_num

/-- The real-valued inverse conversion, written with the epoch day
inlined. -/
theorem to_utc_real_eq (jd : ℝ) :
    JulianTime.to_utc jd =
      (from_timestamp (i64_sat (truncTZ ((jd - 2440587.5) * 86400)))).getD 0 := by
  have hep : ((JulianTime.julian_day_number epochCivil : ℚ) : ℝ) = 2440587.5 := by
    rw [jdn_epoch_eq]
    norm_num
  simp only [JulianTime.to_utc, hep, from_timestamp_zero]
  rfl

/-- When the computed seconds exceed the host maximum, the inverse
conversion falls back to the epoch. -/
theorem to_utc_epoch_of_big (x : ℝ) (hx : (8210266876800 : ℝ) ≤ (x - 2440587.5) * 86400) :
    JulianTime.to_utc x = 0 := by
  rw [to_utc_real_eq]
  have hb := truncTZ_bounds ((x - 2440587.5) * 86400)
  have htr : (8210266876799 : ℝ) < (truncTZ ((x - 2440587.5) * 86400) : ℝ) := by
    linarith [hb.1]
  have htr' : (8210266876799 : ℤ) < truncTZ ((x - 2440587.5) * 86400) := by
    exact_mod_cast htr
  have hnone : from_timestamp (i64_sat (truncTZ ((x - 2440587.5) * 86400))) = none := by
    have hcond : ¬ (chronoMinTs ≤ i64_sat (truncTZ ((x - 2440587.5) * 86400)) ∧
        i64_sat (truncTZ ((x - 2440587.5) * 86400)) ≤ chronoMaxTs) := by
      unfold i64_sat chronoMinTs chronoMaxTs
      omega
    unfold from_timestamp
    rw [if_neg hcond]
  rw [hnone]
  rfl

/-- Strict monotonicity of the inverse conversion for in-range values at
least two seconds apart. -/
theorem to_utc_lt_of (x y : ℝ)
    (hr1 : |(x - 2440587.5) * 86400| ≤ 2 * 10 ^ 12)
    (hr2 : |(y - 2440587.5) * 86400| ≤ 2 * 10 ^ 12)
    (hgap : (x - 2440587.5) * 86400 + 2 ≤ (y - 2440587.5) * 86400) :
    JulianTime.to_utc x < JulianTime.to_utc y := by
  rw [to_utc_real_eq, to_utc_real_eq]
  obtain ⟨hr1a, hr1b⟩ := abs_le.1 hr1
  obtain ⟨hr2a, hr2b⟩ := abs_le.1 hr2
  have hbx := truncTZ_bounds ((x - 2440587.5) * 86400)
  have hby := truncTZ_bounds ((y - 2440587.5) * 86400)
  have hxa : (-(2 * 10 ^ 12 + 1) : ℝ) < (truncTZ ((x - 2440587.5) * 86400) : ℝ) := by
    linarith [hbx.1]
  have hxb : ((truncTZ ((x - 2440587.5) * 86400) : ℤ) : ℝ) < (2 * 10 ^ 12 + 1 : ℝ) := by
    linarith [hbx.2]
  have hya : (-(2 * 10 ^ 12 + 1) : ℝ) < (truncTZ ((y - 2440587.5) * 86400) : ℝ) := by
    linarith [hby.1]
  have hyb : ((truncTZ ((y - 2440587.5) * 86400) : ℤ) : ℝ) < (2 * 10 ^ 12 + 1 : ℝ) := by
    linarith [hby.2]
  have hxa' : (-(2 * 10 ^ 12 + 1) : ℤ) < truncTZ ((x - 2440587.5) * 86400) := by exact_mod_cast hxa
  have hxb' : truncTZ ((x - 2440587.5) * 86400) < (2 * 10 ^ 12 + 1 : ℤ) := by exact_mod_cast hxb
  have hya' : (-(2 * 10 ^ 12 + 1) : ℤ) < truncTZ ((y - 2440587.5) * 86400) := by exact_mod_cast hya
  have hyb' : truncTZ ((y - 2440587.5) * 86400) < (2 * 10 ^ 12 + 1 : ℤ) := by exact_mod_cast hyb
  have hlt : truncTZ ((x - 2440587.5) * 86400) < truncTZ ((y - 2440587.5) * 86400) := by
    have : (truncTZ ((x - 2440587.5) * 86400) : ℝ) < (truncTZ ((y - 2440587.5) * 86400) : ℝ) := by
      linarith [hbx.2, hby.1]
    exact_mod_cast this
  have hix : i64_sat (truncTZ ((x - 2440587.5) * 86400)) = truncTZ ((x - 2440587.5) * 86400) := by
    unfold i64_sat
    omega
  have hiy : i64_sat (truncTZ ((y - 2440587.5) * 86400)) = truncTZ ((y - 2440587.5) * 86400) := by
    unfold i64_sat
    omega
  have hfx : from_timestamp (truncTZ ((x - 2440587.5) * 86400)) =
      some (truncTZ ((x - 2440587.5) * 86400)) := by
    unfold from_timestamp chronoMinTs chronoMaxTs
    rw [if_pos (by omega)]
  have hfy : from_timestamp (truncTZ ((y - 2440587.5) * 86400)) =
      some (truncTZ ((y - 2440587.5) * 86400)) := by
    unfold from_timestamp chronoMinTs chronoMaxTs
    rw [if_pos (by omega)]
  rw [hix, hiy, hfx, hfy]
  exact hlt

/-- Closed form of the mean-boundary polynomial. -/
theorem jde_mean_eq (k : ℚ) :
    jde_mean k =
      2451550.09766 + 29.530588861 * k + 0.00015437 * (k / 1236.85) ^ 2
        - 0.000000150 * (k / 1236.85) ^ 3 + 0.00000000073 * (k / 1236.85) ^ 4 := by
  simp only [jde_mean, polynomial_eval, List.reverse_cons, List.reverse_nil, List.nil_append,
    List.cons_append, List.foldl_cons, List.foldl_nil]
  ring

/-- The phase correction is uniformly small: its magnitude is at most
`0.81 + 0.0004 |t|` on either branch. -/
theorem phase_correction_abs_le (k B : ℚ) (hB : |k| ≤ B) :
    |phase_correction k| ≤ ((0.81 + 0.0004 * (B / 1236.85) : ℚ) : ℝ) := by
  have htB : |k / 1236.85| ≤ B / 1236.85 := by
    rw [abs_div]
    have : |(1236.85 : ℚ)| = 1236.85 := by norm_num
    rw [this]
    exact div_le_div_of_nonneg_right hB (by norm_num)
  obtain ⟨ht1, ht2⟩ := abs_le.1 htB
  have hs1 : ∀ x : ℝ, |Real.sin x| ≤ 1 := fun x => Real.abs_sin_le_one x
  simp only [phase_correction]
  split_ifs with hbr
  · have h1 : |((0.1734 - 0.000393 * (k / 1236.85) : ℚ) : ℝ) *
        Real.sin (toRadians ((phase_sun_anomaly k : ℚ) : ℝ))| ≤
        ((0.1734 + 0.000393 * (B / 1236.85) : ℚ) : ℝ) := by
      rw [abs_mul]
      have ha : |((0.1734 - 0.000393 * (k / 1236.85) : ℚ) : ℝ)| ≤
          ((0.1734 + 0.000393 * (B / 1236.85) : ℚ) : ℝ) := by
        rw [show |((0.1734 - 0.000393 * (k / 1236.85) : ℚ) : ℝ)| =
            ((|0.1734 - 0.000393 * (k / 1236.85)| : ℚ) : ℝ) by rw [Rat.cast_abs]]
        have : |(0.1734 - 0.000393 * (k / 1236.85) : ℚ)| ≤ 0.1734 + 0.000393 * (B / 1236.85) := by
          rw [abs_le]
          constructor <;> nlinarith
        exact_mod_cast this
      calc |((0.1734 - 0.000393 * (k / 1236.85) : ℚ) : ℝ)| *
            |Real.sin (toRadians ((phase_sun_anomaly k : ℚ) : ℝ))| ≤
          |((0.1734 - 0.000393 * (k / 1236.85) : ℚ) : ℝ)| * 1 :=
            mul_le_mul_of_nonneg_left (hs1 _) (abs_nonneg _)
        _ = |((0.1734 - 0.000393 * (k / 1236.85) : ℚ) : ℝ)| := mul_one _
        _ ≤ _ := ha
    have h2 : |(0.0021 : ℝ) * Real.sin (toRadians ((2 * phase_sun_anomaly k : ℚ) : ℝ))| ≤
        (0.0021 : ℝ) := by
      rw [abs_mul]
      calc |(0.0021 : ℝ)| * |Real.sin (toRadians ((2 * phase_sun_anomaly k : ℚ) : ℝ))| ≤
          |(0.0021 : ℝ)| * 1 := mul_le_mul_of_nonneg_left (hs1 _) (abs_nonneg _)
        _ = |(0.0021 : ℝ)| := mul_one _
        _ = (0.0021 : ℝ) := by norm_num
    have h3 : |(0.4068 : ℝ) * Real.sin (toRadians ((phase_moon_anomaly k : ℚ) : ℝ))| ≤
        (0.4068 : ℝ) := by
      rw [abs_mul]
      calc |(0.4068 : ℝ)| * |Real.sin (toRadians ((phase_moon_anomaly k : ℚ) : ℝ))| ≤
          |(0.4068 : ℝ)| * 1 := mul_le_mul_of_nonneg_left (hs1 _) (abs_nonneg _)
        _ = |(0.4068 : ℝ)| := mul_one _
        _ = (0.4068 : ℝ) := by norm_num
    have htri : ∀ a b c : ℝ, |a + b - c| ≤ |a| + |b| + |c| := by
      intro a b c
      calc |a + b - c| ≤ |a + b| + |c| := abs_sub _ _
        _ ≤ |a| + |b| + |c| := by linarith [abs_add a b]
    have hsum := htri (((0.1734 - 0.000393 * (k / 1236.85) : ℚ) : ℝ) *
        Real.sin (toRadians ((phase_sun_anomaly k : ℚ) : ℝ)))
      ((0.0021 : ℝ) * Real.sin (toRadians ((2 * phase_sun_anomaly k : ℚ) : ℝ)))
      ((0.4068 : ℝ) * Real.sin (toRadians ((phase_moon_anomaly k : ℚ) : ℝ)))
    have hfin : ((0.1734 + 0.000393 * (B / 1236.85) : ℚ) : ℝ) + 0.0021 + 0.4068 ≤
        ((0.81 + 0.0004 * (B / 1236.85) : ℚ) : ℝ) := by
      have hq : (0.1734 + 0.000393 * (B / 1236.85) : ℚ) + 0.0021 + 0.4068 ≤
          (0.81 + 0.0004 * (B / 1236.85) : ℚ) := by
        have hBt : 0 ≤ B / 1236.85 := le_trans (abs_nonneg _) htB
        nlinarith
      have h2021 : ((0.1734 + 0.000393 * (B / 1236.85) + 0.0021 + 0.4068 : ℚ) : ℝ) ≤
          ((0.81 + 0.0004 * (B / 1236.85) : ℚ) : ℝ) := by exact_mod_cast hq
      rw [Rat.cast_add, Rat.cast_add] at h2021
      rw [show ((0.0021 : ℚ) : ℝ) = 0.0021 by norm_num,
        show ((0.4068 : ℚ) : ℝ) = 0.4068 by norm_num] at h2021
      exact h2021
    linarith
  · have h1 : |((0.1721 - 0.0004 * (k / 1236.85) : ℚ) : ℝ) *
        Real.sin (toRadians ((phase_sun_anomaly k : ℚ) : ℝ))| ≤
        ((0.1721 + 0.0004 * (B / 1236.85) : ℚ) : ℝ) := by
      rw [abs_mul]
      have ha : |((0.1721 - 0.0004 * (k / 1236.85) : ℚ) : ℝ)| ≤
          ((0.1721 + 0.0004 * (B / 1236.85) : ℚ) : ℝ) := by
        rw [show |((0.1721 - 0.0004 * (k / 1236.85) : ℚ) : ℝ)| =
            ((|0.1721 - 0.0004 * (k / 1236.85)| : ℚ) : ℝ) by rw [Rat.cast_abs]]
        have : |(0.1721 - 0.0004 * (k / 1236.85) : ℚ)| ≤ 0.1721 + 0.0004 * (B / 1236.85) := by
          rw [abs_le]
          constructor <;> nlinarith
        exact_mod_cast this
      calc |((0.1721 - 0.0004 * (k / 1236.85) : ℚ) : ℝ)| *
            |Real.sin (toRadians ((phase_sun_anomaly k : ℚ) : ℝ))| ≤
          |((0.1721 - 0.0004 * (k / 1236.85) : ℚ) : ℝ)| * 1 :=
            mul_le_mul_of_nonneg_left (hs1 _) (abs_nonneg _)
        _ = |((0.1721 - 0.0004 * (k / 1236.85) : ℚ) : ℝ)| := mul_one _
        _ ≤ _ := ha
    have h3 : |(0.6280 : ℝ) * Real.sin (toRadians ((phase_moon_anomaly k : ℚ) : ℝ))| ≤
        (0.6280 : ℝ) := by
      rw [abs_mul]
      calc |(0.6280 : ℝ)| * |Real.sin (toRadians ((phase_moon_anomaly k : ℚ) : ℝ))| ≤
          |(0.6280 : ℝ)| * 1 := mul_le_mul_of_nonneg_left (hs1 _) (abs_nonneg _)
        _ = |(0.6280 : ℝ)| := mul_one _
        _ = (0.6280 : ℝ) := by norm_num
    have hsum := abs_sub (((0.1721 - 0.0004 * (k / 1236.85) : ℚ) : ℝ) *
        Real.sin (toRadians ((phase_sun_anomaly k : ℚ) : ℝ)))
      ((0.6280 : ℝ) * Real.sin (toRadians ((phase_moon_anomaly k : ℚ) : ℝ)))
    have hfin : ((0.1721 + 0.0004 * (B / 1236.85) : ℚ) : ℝ) + 0.6280 ≤
        ((0.81 + 0.0004 * (B / 1236.85) : ℚ) : ℝ) := by
      have hq : (0.1721 + 0.0004 * (B / 1236.85) : ℚ) + 0.6280 ≤
          (0.81 + 0.0004 * (B / 1236.85) : ℚ) := by
        nlinarith
      have h2021 : ((0.1721 + 0.0004 * (B / 1236.85) + 0.6280 : ℚ) : ℝ) ≤
          ((0.81 + 0.0004 * (B / 1236.85) : ℚ) : ℝ) := by exact_mod_cast hq
      rw [Rat.cast_add] at h2021
      rw [show ((0.6280 : ℚ) : ℝ) = 0.6280 by norm_num] at h2021
      exact h2021
    linarith

/-- Two consecutive refined lunation indices are a quarter synodic month
apart in the mean polynomial, up to a tiny higher-order drift. -/
theorem jde_mean_gap (u : ℚ) (hu : |u| ≤ 421654) :
    (7.38 : ℚ) ≤ jde_mean (u + 0.25) - jde_mean u := by
  obtain ⟨hu1, hu2⟩ := abs_le.1 hu
  rw [jde_mean_eq, jde_mean_eq]
  have hv : (u + 0.25) / 1236.85 = u / 1236.85 + 5 / 24737 := by ring
  rw [hv]
  have hv1 : -(341 : ℚ) ≤ u / 1236.85 := by
    rw [le_div_iff (show (0 : ℚ) < 1236.85 by norm_num)]
    linarith
  have hv2 : u / 1236.85 ≤ 341 := by
    rw [div_le_iff (show (0 : ℚ) < 1236.85 by norm_num)]
    linarith
  have hsq : (u / 1236.85) ^ 2 ≤ 116281 := by nlinarith
  have hc1 : (341 - u / 1236.85) * (u / 1236.85) ^ 2 ≥ 0 :=
    mul_nonneg (by linarith) (sq_nonneg _)
  have hc2 : (341 + u / 1236.85) * (u / 1236.85) ^ 2 ≥ 0 :=
    mul_nonneg (by linarith) (sq_nonneg _)
  have hcb1 : (u / 1236.85) ^ 3 ≤ 39651821 := by nlinarith [sq_nonneg (u / 1236.85)]
  have hcb2 : -(39651821 : ℚ) ≤ (u / 1236.85) ^ 3 := by nlinarith [sq_nonneg (u / 1236.85)]
  nlinarith [sq_nonneg (u / 1236.85)]

/-- The mean boundary polynomial deviates from its linear part by at most
36 days on the considered range. -/
theorem jde_mean_dev (u : ℚ) (hu : |u| ≤ 421654) :
    |jde_mean u - (2451550.09766 + 29.530588861 * u)| ≤ 36 := by
  obtain ⟨hu1, hu2⟩ := abs_le.1 hu
  rw [jde_mean_eq]
  have hv1 : -(341 : ℚ) ≤ u / 1236.85 := by
    rw [le_div_iff (show (0 : ℚ) < 1236.85 by norm_num)]
    linarith
  have hv2 : u / 1236.85 ≤ 341 := by
    rw [div_le_iff (show (0 : ℚ) < 1236.85 by norm_num)]
    linarith
  have hsq : (u / 1236.85) ^ 2 ≤ 116281 := by nlinarith
  have hc1 : (341 - u / 1236.85) * (u / 1236.85) ^ 2 ≥ 0 :=
    mul_nonneg (by linarith) (sq_nonneg _)
  have hc2 : (341 + u / 1236.85) * (u / 1236.85) ^ 2 ≥ 0 :=
    mul_nonneg (by linarith) (sq_nonneg _)
  have hcb1 : (u / 1236.85) ^ 3 ≤ 39651821 := by nlinarith [sq_nonneg (u / 1236.85)]
  have hcb2 : -(39651821 : ℚ) ≤ (u / 1236.85) ^ 3 := by nlinarith [sq_nonneg (u / 1236.85)]
  have hq4 : (u / 1236.85) ^ 4 ≤ 13521270961 := by
    have h1 : (u / 1236.85) ^ 4 = ((u / 1236.85) ^ 2) ^ 2 := by ring
    rw [h1]
    nlinarith [sq_nonneg ((u / 1236.85) ^ 2)]
  have hq40 : 0 ≤ (u / 1236.85) ^ 4 := by positivity
  rw [abs_le]
  constructor <;> nlinarith [sq_nonneg (u / 1236.85)]

/-- The refined index of the previous boundary stays within two units of
the lunation index. -/
theorem k_base_abs_le (julian : JulianTime)
    (hlow : -(10 ^ 7 : ℚ) ≤ julian.day) (hhigh : julian.day ≤ 10 ^ 7) :
    |k_base julian| ≤ 421653 := by
  have hk_eq : index_lunation julian * 29.530588861 = julian.day - 2451550.09766 := by
    unfold index_lunation
    field_simp
  have hk1 : -(421651 : ℚ) ≤ index_lunation julian := by nlinarith
  have hk2 : index_lunation julian ≤ 421651 := by nlinarith
  obtain ⟨hpl, hpu⟩ := phase_index_bounds julian
  have hfl : ((⌊index_lunation julian⌋ : ℤ) : ℚ) ≤ index_lunation julian := Int.floor_le _
  have hfl2 : index_lunation julian - 1 < ((⌊index_lunation julian⌋ : ℤ) : ℚ) :=
    Int.sub_one_lt_floor _
  have hpl' : (-4 : ℚ) ≤ (phase_index julian : ℚ) := by exact_mod_cast hpl
  have hpu' : (phase_index julian : ℚ) ≤ 3 := by exact_mod_cast hpu
  have he : k_base julian =
      ((⌊index_lunation julian⌋ : ℤ) : ℚ) + (phase_index julian : ℚ) * 0.25 := rfl
  rw [he, abs_le]
  constructor <;> linarith

/-- The two boundary Julian Days are at least five days apart within the
considered range. -/
theorem julian_day_of_phase_gap (u : ℚ) (hu : |u| ≤ 421653.5) :
    (5 : ℝ) ≤ julian_day_of_phase (u + 0.25) - julian_day_of_phase u := by
  have hu1 : |u| ≤ 421654 := le_trans hu (by norm_num)
  have hu2 : |u + 0.25| ≤ 421654 := by
    rw [abs_le] at *
    constructor <;> [linarith [hu.1]; linarith [hu.2]]
  have hg := jde_mean_gap u hu1
  have hc1 := phase_correction_abs_le u 421654 hu1
  have hc2 := phase_correction_abs_le (u + 0.25) 421654 hu2
  have hbnd : ((0.81 + 0.0004 * ((421654 : ℚ) / 1236.85) : ℚ) : ℝ) ≤ 0.95 := by
    rw [show (0.95 : ℝ) = ((0.95 : ℚ) : ℝ) by norm_num]
    rw [Rat.cast_le]
    norm_num
  have hgR : ((7.38 : ℚ) : ℝ) ≤ ((jde_mean (u + 0.25) : ℚ) : ℝ) - ((jde_mean u : ℚ) : ℝ) := by
    rw [show ((jde_mean (u + 0.25) : ℚ) : ℝ) - ((jde_mean u : ℚ) : ℝ) =
        ((jde_mean (u + 0.25) - jde_mean u : ℚ) : ℝ) by push_cast; ring]
    exact Rat.cast_le.2 hg
  have h738 : ((7.38 : ℚ) : ℝ) = 7.38 := by norm_num
  rw [h738] at hgR
  obtain ⟨hc1a, hc1b⟩ := abs_le.1 hc1
  obtain ⟨hc2a, hc2b⟩ := abs_le.1 hc2
  simp only [julian_day_of_phase, DELTA_T]
  rw [show ((70.0 : ℚ) : ℝ) = 70 by norm_num]
  linarith

/-- Each boundary Julian Day stays within thirteen million days of the
epoch on the considered range. -/
theorem julian_day_of_phase_range (u : ℚ) (hu : |u| ≤ 421654) :
    |julian_day_of_phase u - 2440587.5| ≤ 13000000 := by
  have hdev := jde_mean_dev u hu
  have hc := phase_correction_abs_le u 421654 hu
  have hbnd : ((0.81 + 0.0004 * ((421654 : ℚ) / 1236.85) : ℚ) : ℝ) ≤ 0.95 := by
    rw [show (0.95 : ℝ) = ((0.95 : ℚ) : ℝ) by norm_num]
    rw [Rat.cast_le]
    norm_num
  obtain ⟨hu1, hu2⟩ := abs_le.1 hu
  obtain ⟨hd1, hd2⟩ := abs_le.1 hdev
  obtain ⟨hc1, hc2⟩ := abs_le.1 hc
  have hlin1 : jde_mean u ≤ 2451550.09766 + 29.530588861 * u + 36 := by linarith
  have hlin2 : 2451550.09766 + 29.530588861 * u - 36 ≤ jde_mean u := by linarith
  have hmr1 : ((jde_mean u : ℚ) : ℝ) ≤
      ((2451550.09766 + 29.530588861 * u + 36 : ℚ) : ℝ) := Rat.cast_le.2 hlin1
  have hmr2 : ((2451550.09766 + 29.530588861 * u - 36 : ℚ) : ℝ) ≤
      ((jde_mean u : ℚ) : ℝ) := Rat.cast_le.2 hlin2
  have hq1 : ((2451550.09766 + 29.530588861 * u + 36 : ℚ) : ℝ) ≤ 14903400 := by
    rw [show (14903400 : ℝ) = ((14903400 : ℚ) : ℝ) by norm_num]
    rw [Rat.cast_le]
    nlinarith
  have hq2 : (-10050000 : ℝ) ≤ ((2451550.09766 + 29.530588861 * u - 36 : ℚ) : ℝ) := by
    rw [show (-10050000 : ℝ) = ((-10050000 : ℚ) : ℝ) by norm_num]
    rw [Rat.cast_le]
    nlinarith
  simp only [julian_day_of_phase, DELTA_T]
  rw [show ((70.0 : ℚ) : ℝ) = 70 by norm_num]
  rw [abs_le]
  constructor <;> linarith

/-- C2 (amended): for every instant whose Julian Day lies within `±10^7`
days of the epoch (roughly years −25000 to +29000, covering every instant
away from the extreme ends of the host-representable range), the next
boundary instant returned by `phases_around` is strictly later than the
previous one. -/
theorem C2_next_strictly_later (julian : JulianTime)
    (hlow : -(10 ^ 7 : ℚ) ≤ julian.day) (hhigh : julian.day ≤ 10 ^ 7) :
    (phases_around julian).1.2 < (phases_around julian).2.2 := by
  have hkb := k_base_abs_le julian hlow hhigh
  have hkb1 : |k_base julian| ≤ 421654 := le_trans hkb (by norm_num)
  have hkb2 : |k_base julian + 0.25| ≤ 421654 := by
    rw [abs_le] at *
    constructor <;> [linarith [hkb.1]; linarith [hkb.2]]
  have hprev : (phases_around julian).1.2 =
      JulianTime.to_utc (julian_day_of_phase (k_base julian)) := rfl
  have hnext : (phases_around julian).2.2 =
      JulianTime.to_utc (julian_day_of_phase (k_base julian + 0.25)) := rfl
  rw [hprev, hnext]
  have hr1 := julian_day_of_phase_range (k_base julian) hkb1
  have hr2 := julian_day_of_phase_range (k_base julian + 0.25) hkb2
  have hgap := julian_day_of_phase_gap (k_base julian) (le_trans hkb (by norm_num))
  apply to_utc_lt_of
  · obtain ⟨ha, hb⟩ := abs_le.1 hr1
    rw [abs_le]
    constructor <;> nlinarith
  · obtain ⟨ha, hb⟩ := abs_le.1 hr2
    rw [abs_le]
    constructor <;> nlinarith
  · nlinarith

/-- C2 witness: at the J2000.0 instant the two boundary instants exist
and the next one is strictly later. -/
theorem C2_witness :
    (-(10 ^ 7 : ℚ) ≤ (JulianTime.new ⟨2000, 1, 1, 12, 0, 0⟩).day ∧
      (JulianTime.new ⟨2000, 1, 1, 12, 0, 0⟩).day ≤ 10 ^ 7) ∧
    (phases_around (JulianTime.new ⟨2000, 1, 1, 12, 0, 0⟩)).1.2 <
      (phases_around (JulianTime.new ⟨2000, 1, 1, 12, 0, 0⟩)).2.2 := by
  have hday : (JulianTime.new ⟨2000, 1, 1, 12, 0, 0⟩).day = 2451545 := by
    show JulianTime.julian_day_number ⟨2000, 1, 1, 12, 0, 0⟩ = 2451545
    unfold JulianTime.julian_day_number
    norm_num
  have h1 : -(10 ^ 7 : ℚ) ≤ (JulianTime.new ⟨2000, 1, 1, 12, 0, 0⟩).day := by
    rw [hday]
    norm_num
  have h2 : (JulianTime.new ⟨2000, 1, 1, 12, 0, 0⟩).day ≤ 10 ^ 7 := by
    rw [hday]
    norm_num
  exact ⟨⟨h1, h2⟩, C2_next_strictly_later (JulianTime.new ⟨2000, 1, 1, 12, 0, 0⟩) h1 h2⟩

/-- The Julian Day of `farInstant`. -/
theorem farInstant_day : (JulianTime.new farInstant).day = 194932491 / 2 := by
  show JulianTime.julian_day_number farInstant = 194932491 / 2
  unfold farInstant JulianTime.julian_day_number
  norm_num

/-- The lunation index of `farInstant`. -/
theorem farInstant_k :
    index_lunation (JulianTime.new farInstant) = 95014695402340000 / 29530588861 := by
  have he : index_lunation (JulianTime.new farInstant) =
      ((JulianTime.new farInstant).day - 2451550.09766) / 29.530588861 := rfl
  rw [he, farInstant_day]
  norm_num

/-- The integer part of the lunation index of `farInstant`. -/
theorem farInstant_k_floor : ⌊index_lunation (JulianTime.new farInstant)⌋ = 3217500 := by
  rw [farInstant_k, Int.floor_eq_iff]
  constructor <;> norm_num

/-- The quantized quarter index of `farInstant`. -/
theorem farInstant_phase_index : phase_index (JulianTime.new farInstant) = 3 := by
  have he : phase_index (JulianTime.new farInstant) =
      ⌊fmod (index_lunation (JulianTime.new farInstant)) 1 * 4⌋ := rfl
  have hpos : (0 : ℚ) ≤ index_lunation (JulianTime.new farInstant) / 1 := by
    rw [farInstant_k]
    norm_num
  have hfm : fmod (index_lunation (JulianTime.new farInstant)) 1 =
      index_lunation (JulianTime.new farInstant) - 3217500 := by
    unfold fmod truncTZ
    rw [if_pos hpos, div_one, farInstant_k_floor]
    norm_num
  rw [he, hfm, farInstant_k, Int.floor_eq_iff]
  constructor <;> norm_num

/-- The refined previous-boundary index of `farInstant`. -/
theorem farInstant_k_base : k_base (JulianTime.new farInstant) = 12870003 / 4 := by
  have he : k_base (JulianTime.new farInstant) =
      ((⌊index_lunation (JulianTime.new farInstant)⌋ : ℤ) : ℚ) +
        (phase_index (JulianTime.new farInstant) : ℚ) * 0.25 := rfl
  rw [he, farInstant_k_floor, farInstant_phase_index]
  norm_num

/-- Both boundaries computed at `farInstant` overflow the host time
range: their Julian Days sit beyond the representable maximum. -/
theorem farInstant_boundary_big (u : ℚ) (hu1 : 12870003 / 4 ≤ u) (hu2 : u ≤ 12870003 / 4 + 1) :
    (8210266876800 : ℝ) ≤ (julian_day_of_phase u - 2440587.5) * 86400 := by
  have habs : |u| ≤ 3217502 := by
    rw [abs_le]
    constructor <;> linarith
  have hjm : (97498000 : ℚ) ≤ jde_mean u := by
    rw [jde_mean_eq]
    have hv1 : (2601 : ℚ) ≤ u / 1236.85 := by
      rw [le_div_iff (show (0 : ℚ) < 1236.85 by norm_num)]
      linarith
    have hv2 : u / 1236.85 ≤ 2602 := by
      rw [div_le_iff (show (0 : ℚ) < 1236.85 by norm_num)]
      linarith
    have hsq1 : (2601 : ℚ) ^ 2 ≤ (u / 1236.85) ^ 2 := by nlinarith
    have hsq2 : (u / 1236.85) ^ 2 ≤ (2602 : ℚ) ^ 2 := by nlinarith
    have hcb1 : (2601 : ℚ) ^ 3 ≤ (u / 1236.85) ^ 3 := by nlinarith
    have hcb2 : (u / 1236.85) ^ 3 ≤ (2602 : ℚ) ^ 3 := by nlinarith
    have hq1 : (2601 : ℚ) ^ 4 ≤ (u / 1236.85) ^ 4 := by nlinarith
    nlinarith
  have hjmR : (97498000 : ℝ) ≤ ((jde_mean u : ℚ) : ℝ) := by
    rw [show (97498000 : ℝ) = ((97498000 : ℚ) : ℝ) by norm_num]
    exact Rat.cast_le.2 hjm
  have hcorr := phase_correction_abs_le u 3217502 habs
  have hbnd : ((0.81 + 0.0004 * ((3217502 : ℚ) / 1236.85) : ℚ) : ℝ) ≤ 2 := by
    rw [show (2 : ℝ) = ((2 : ℚ) : ℝ) by norm_num]
    rw [Rat.cast_le]
    norm_num
  obtain ⟨hca, hcb⟩ := abs_le.1 hcorr
  simp only [julian_day_of_phase, DELTA_T]
  rw [show ((70.0 : ℚ) : ℝ) = 70 by norm_num]
  nlinarith

/-- C2 counterexample: at the instant `farInstant` both boundary
conversions overflow the host time type and fall back to the epoch, so
the next PhaseEvent's instant is not later than the previous one. -/
theorem C2_counterexample :
    ¬ ((phases_around (JulianTime.new farInstant)).1.2 <
        (phases_around (JulianTime.new farInstant)).2.2) := by
  have hprev : (phases_around (JulianTime.new farInstant)).1.2 =
      JulianTime.to_utc (julian_day_of_phase (k_base (JulianTime.new farInstant))) := rfl
  have hnext : (phases_around (JulianTime.new farInstant)).2.2 =
      JulianTime.to_utc (julian_day_of_phase (k_base (JulianTime.new farInstant) + 0.25)) := rfl
  have e1 : JulianTime.to_utc (julian_day_of_phase (k_base (JulianTime.new farInstant))) = 0 := by
    rw [farInstant_k_base]
    exact to_utc_epoch_of_big _ (farInstant_boundary_big (12870003 / 4)
      (by norm_num) (by norm_num))
  have e2 : JulianTime.to_utc
      (julian_day_of_phase (k_base (JulianTime.new farInstant) + 0.25)) = 0 := by
    rw [farInstant_k_base]
    exact to_utc_epoch_of_big _ (farInstant_boundary_big (12870003 / 4 + 0.25)
      (by norm_num) (by norm_num))
  rw [hprev, hnext, e1, e2]
  exact lt_irrefl 0
